import Mathlib

/-
Shallow embedding of the model-runtime core of `src/llama/src/llama_core.cpp`
(namespace `llama_capi`): performance metrics, the per-model context pool,
the model registry (`SimpleModelManager`), generation / chat-completion /
embeddings, and the streaming generation task.

Modelling conventions:
* machine counters (`size_t`, `uint64_t`, atomics) are `Nat`; the program
  never exercises overflow on them;
* `double` appears only in the two metric averages; those are modelled over
  `ℚ`, since the claims about them concern branch structure and totality,
  not rounding;
* `std::chrono::steady_clock` timestamps are `Nat` milliseconds supplied by
  the caller (`now` arguments);
* the inference engine (llama.cpp) is an external collaborator; its
  behaviour at each call site is an explicit oracle argument
  (success flags, tokenisation results, sampled tokens, token pieces);
* C++ raw-pointer identity of `ContextPoolEntry` objects is modelled by a
  `Nat` id drawn from a fresh-name counter in the pool;
* fallible paths return `Option` or an explicit outcome inductive whose
  constructors are in bijection with the `return` sites of the source.
-/

namespace LlamaCapi

/-! ## Performance metrics (llama_core.cpp lines 13-61)

`PerformanceMetrics` holds atomic counters; `PerformanceSnapshot` is the
plain-value copy produced by `GetMetrics`.  Both classes implement the same
two derived averages; both are embedded. -/

structure PerformanceMetrics where
  total_requests : Nat
  total_tokens_generated : Nat
  total_generation_time_ms : Nat
  memory_usage_bytes : Nat
  peak_memory_bytes : Nat
  active_contexts : Nat
  pool_size : Nat
deriving DecidableEq, Repr

def PerformanceMetrics.GetAverageTokensPerSecond (m : PerformanceMetrics) : ℚ :=
  if 0 < m.total_requests ∧ 0 < m.total_generation_time_ms then
    ((m.total_tokens_generated : ℚ) / (m.total_generation_time_ms : ℚ)) * 1000
  else 0

def PerformanceMetrics.GetAverageLatencyMs (m : PerformanceMetrics) : ℚ :=
  if 0 < m.total_requests then
    (m.total_generation_time_ms : ℚ) / (m.total_requests : ℚ)
  else 0

structure PerformanceSnapshot where
  total_requests : Nat
  total_tokens_generated : Nat
  total_generation_time_ms : Nat
  memory_usage_bytes : Nat
  peak_memory_bytes : Nat
  active_contexts : Nat
  pool_size : Nat
deriving DecidableEq, Repr

def PerformanceSnapshot.GetAverageTokensPerSecond (m : PerformanceSnapshot) : ℚ :=
  if 0 < m.total_requests ∧ 0 < m.total_generation_time_ms then
    ((m.total_tokens_generated : ℚ) / (m.total_generation_time_ms : ℚ)) * 1000
  else 0

def PerformanceSnapshot.GetAverageLatencyMs (m : PerformanceSnapshot) : ℚ :=
  if 0 < m.total_requests then
    (m.total_generation_time_ms : ℚ) / (m.total_requests : ℚ)
  else 0

/-! ## Context pool (llama_core.cpp lines 64-214)

A `ContextPoolEntry` wraps one llama context + sampler; the opaque handles
themselves carry no observable state, so an entry is identified by `id`
(standing for the C++ object address) plus its bookkeeping fields.

`all_contexts_` is a `std::vector<std::unique_ptr<ContextPoolEntry>>` and
`available_contexts_` a `std::queue<ContextPoolEntry*>` of raw pointers into
it; we keep the vector as a list of entries and the queue as a list of ids
(front of the queue = head of the list). -/

structure ContextPoolEntry where
  id : Nat
  in_use : Bool
  last_used : Nat
  usage_count : Nat
deriving DecidableEq, Repr

/-- Fixed idle time-to-live: `context_ttl_(std::chrono::minutes(30))`
(line 82), in milliseconds. -/
def contextTtlMs : Nat := 30 * 60 * 1000

structure ContextPool where
  max_pool_size : Nat
  context_ttl : Nat
  available_contexts : List Nat
  all_contexts : List ContextPoolEntry
  /-- fresh-name supply standing for the addresses of newly allocated
  entries (all distinct from every live entry). -/
  next_id : Nat
deriving DecidableEq, Repr

/-- Constructor (lines 81-83): empty pool with the configured maximum size
and a 30-minute TTL. -/
def ContextPool.init (maxSize : Nat) : ContextPool :=
  { max_pool_size := maxSize
    context_ttl := contextTtlMs
    available_contexts := []
    all_contexts := []
    next_id := 0 }

/-- `CreateNewContext` (lines 138-179): asks the engine for a context and a
sampler; `engineOk` abbreviates "`model_` is non-null, `llama_init_from_model`
and `llama_sampler_chain_init` both succeed".  The fresh entry starts
`in_use = true`, `usage_count = 1`, `last_used = now` (the
`ContextPoolEntry` constructor stamps creation time, line 66).  Note the
entry is returned to the caller and NOT recorded in `all_contexts_`. -/
def ContextPool.CreateNewContext (p : ContextPool) (now : Nat) (engineOk : Bool) :
    Option ContextPoolEntry × ContextPool :=
  if engineOk then
    (some { id := p.next_id, in_use := true, last_used := now, usage_count := 1 },
     { p with next_id := p.next_id + 1 })
  else
    (none, p)

/-- `AcquireContext` (lines 95-123).  If the available queue is non-empty,
pop its front, mark it in use, stamp `last_used`, bump `usage_count`, then
linearly scan `all_contexts_` for the owning `unique_ptr`, move it out and
erase it from the vector.  (If the scan were to miss — impossible while the
two collections agree — control falls through to the creation check, exactly
as in the source.)  Otherwise, if `all_contexts_.size() < max_pool_size_`,
create a new entry; otherwise return null. -/
def ContextPool.AcquireContext (p : ContextPool) (now : Nat) (engineOk : Bool) :
    Option ContextPoolEntry × ContextPool :=
  match p.available_contexts with
  | front :: rest =>
    match p.all_contexts.find? (fun e => e.id == front) with
    | some e =>
      (some { e with in_use := true, last_used := now, usage_count := e.usage_count + 1 },
       { p with
          available_contexts := rest
          all_contexts := p.all_contexts.filter (fun x => x.id ≠ front) })
    | none =>
      if p.all_contexts.length < p.max_pool_size then
        p.CreateNewContext now engineOk
      else
        (none, p)
  | [] =>
    if p.all_contexts.length < p.max_pool_size then
      p.CreateNewContext now engineOk
    else
      (none, p)

/-- `ReleaseContext` (lines 125-136): mark idle, stamp `last_used`, push the
raw pointer on the queue and the `unique_ptr` on the vector. -/
def ContextPool.ReleaseContext (p : ContextPool) (e : ContextPoolEntry) (now : Nat) :
    ContextPool :=
  let e' := { e with in_use := false, last_used := now }
  { p with
      available_contexts := p.available_contexts ++ [e'.id]
      all_contexts := p.all_contexts ++ [e'] }

/-- `CleanupExpiredContexts` (lines 181-204): walk the available queue;
entries with `now - last_used < context_ttl_` are kept, the rest are erased
from `all_contexts_` (and dropped from the queue).  The expiry test
dereferences the queued pointer, i.e. reads the entry stored in
`all_contexts_`; a queued id with no owning entry (unreachable) is kept,
mirroring that the source would not erase anything for it. -/
def ContextPool.CleanupExpiredContexts (p : ContextPool) (now : Nat) : ContextPool :=
  let keep : ContextPoolEntry → Bool := fun e => now - e.last_used < p.context_ttl
  let keepId : Nat → Bool := fun i =>
    match p.all_contexts.find? (fun e => e.id == i) with
    | some e => keep e
    | none => true
  { p with
      available_contexts := p.available_contexts.filter keepId
      all_contexts :=
        p.all_contexts.filter (fun e => !(p.available_contexts.contains e.id) || keep e) }

/-- `GetPoolSize` (lines 206-209): `all_contexts_.size()`. -/
def ContextPool.GetPoolSize (p : ContextPool) : Nat := p.all_contexts.length

/-- `GetAvailableCount` (lines 211-214): `available_contexts_.size()`. -/
def ContextPool.GetAvailableCount (p : ContextPool) : Nat := p.available_contexts.length

/-! ## Pool transition system

A closed system: one pool plus the multiset of entries currently held by
callers (acquired and not yet released).  Every reachable configuration of a
`ContextPool` in the program arises from some interleaving of these three
operations — acquisition, release of a previously acquired entry, and the
janitor's cleanup sweep. -/

inductive PoolAction where
  | acquire (now : Nat) (engineOk : Bool)
  | release (e : ContextPoolEntry) (now : Nat)
  | cleanup (now : Nat)
deriving DecidableEq, Repr

structure PoolSys where
  pool : ContextPool
  /-- entries acquired from the pool and not yet released (in order of
  acquisition). -/
  held : List ContextPoolEntry
deriving DecidableEq, Repr

def PoolSys.init (maxSize : Nat) : PoolSys :=
  { pool := ContextPool.init maxSize, held := [] }

def PoolSys.step (s : PoolSys) (a : PoolAction) : PoolSys :=
  match a with
  | .acquire now engineOk =>
    let (entry?, pool') := s.pool.AcquireContext now engineOk
    match entry? with
    | some e => { pool := pool', held := s.held ++ [e] }
    | none => { pool := pool', held := s.held }
  | .release e now =>
    if e ∈ s.held then
      { pool := s.pool.ReleaseContext e now, held := s.held.erase e }
    else s
  | .cleanup now =>
    { pool := s.pool.CleanupExpiredContexts now, held := s.held }

inductive PoolSys.Reachable : PoolSys → Prop where
  | init (maxSize : Nat) : PoolSys.Reachable (PoolSys.init maxSize)
  | step (a : PoolAction) {s : PoolSys} :
      PoolSys.Reachable s → PoolSys.Reachable (PoolSys.step s a)

/-- Structural invariant of reachable pool configurations: the available
queue lists exactly the ids of `all_contexts_` in order, ids are globally
distinct (they stand for object addresses), and the fresh-name counter
bounds every live id.  The TTL is the constructed 30 minutes. -/
def PoolSys.Inv (s : PoolSys) : Prop :=
  s.pool.available_contexts = s.pool.all_contexts.map (fun e => e.id)
  ∧ (s.pool.all_contexts.map (fun e => e.id) ++ s.held.map (fun e => e.id)).Nodup
  ∧ (∀ e ∈ s.pool.all_contexts ++ s.held, e.id < s.pool.next_id)
  ∧ s.pool.context_ttl = contextTtlMs

lemma PoolSys.inv_init (maxSize : Nat) : PoolSys.Inv (PoolSys.init maxSize) := by
  refine ⟨rfl, by simp [PoolSys.init, ContextPool.init],
    by simp [PoolSys.init, ContextPool.init], rfl⟩

/-- In a list of entries with pairwise-distinct ids, searching for the id of
a member finds exactly that member. -/
lemma find_id_of_mem_nodup {l : List ContextPoolEntry} {e : ContextPoolEntry}
    (he : e ∈ l) (hn : (l.map (fun x => x.id)).Nodup) :
    l.find? (fun x => x.id == e.id) = some e := by
  induction l with
  | nil => cases he
  | cons a tl ih =>
    simp only [List.map_cons, List.nodup_cons] at hn
    rcases List.mem_cons.mp he with rfl | htl
    · exact List.find?_cons_of_pos (p := fun x => x.id == e.id) tl
        (show (e.id == e.id) = true from beq_self_eq_true _)
    · have hne : ¬((fun (x : ContextPoolEntry) => x.id == e.id) a) = true := by
        simp only [beq_iff_eq]
        intro hid
        exact hn.1 (hid ▸ (List.mem_map.mpr ⟨e, htl, rfl⟩))
      exact (List.find?_cons_of_neg (p := fun x => x.id == e.id) tl hne).trans
        (ih htl hn.2)

/-- Removing a member (by id) from a nodup-id list removes exactly that
member. -/
lemma filter_ne_id_of_nodup {l : List ContextPoolEntry} {e : ContextPoolEntry}
    (hn : (l.map (fun x => x.id)).Nodup) (he : e ∈ l) :
    ∃ l₁ l₂, l = l₁ ++ e :: l₂ ∧
      l.filter (fun x => x.id ≠ e.id) = l₁ ++ l₂ := by
  induction l with
  | nil => cases he
  | cons a tl ih =>
    simp only [List.map_cons, List.nodup_cons] at hn
    rcases List.mem_cons.mp he with rfl | htl
    · refine ⟨[], tl, by simp, ?_⟩
      have hall : ∀ x ∈ tl, x.id ≠ e.id := by
        intro x hx hxe
        exact hn.1 (hxe ▸ (List.mem_map.mpr ⟨x, hx, rfl⟩))
      have h1 : List.filter (fun x => decide (x.id ≠ e.id)) (e :: tl) =
          List.filter (fun x => decide (x.id ≠ e.id)) tl := by
        simp [List.filter_cons]
      have h2 : List.filter (fun x => decide (x.id ≠ e.id)) tl = tl :=
        List.filter_eq_self.mpr (fun x hx => by simpa using hall x hx)
      rw [h1, h2]
      rfl
    · obtain ⟨l₁, l₂, hsplit, hfilter⟩ := ih hn.2 htl
      refine ⟨a :: l₁, l₂, by simp [hsplit], ?_⟩
      have hane : a.id ≠ e.id := by
        intro hid
        exact hn.1 (hid ▸ (List.mem_map.mpr ⟨e, htl, rfl⟩))
      have h1 : List.filter (fun x => decide (x.id ≠ e.id)) (a :: tl) =
          a :: List.filter (fun x => decide (x.id ≠ e.id)) tl := by
        simp [List.filter_cons, hane]
      rw [h1, hfilter]
      rfl

/-- Filtering the id projection with a pointwise-matching id predicate is
filtering the entries and then projecting. -/
lemma filter_map_id {l : List ContextPoolEntry} {p : ContextPoolEntry → Bool}
    {q : Nat → Bool} (h : ∀ e ∈ l, q e.id = p e) :
    (l.map (fun e => e.id)).filter q = (l.filter p).map (fun e => e.id) := by
  induction l with
  | nil => rfl
  | cons a tl ih =>
    have ha := h a (List.mem_cons_self a tl)
    have ih' := ih (fun e he => h e (List.mem_cons_of_mem a he))
    cases hpa : p a with
    | true => simp [List.filter_cons, ha, hpa, ih']
    | false => simp [List.filter_cons, ha, hpa, ih']

/-- Under the pool's structural invariant, the cleanup sweep keeps in
`all_contexts_` exactly the entries whose idle time is under the TTL. -/
lemma CleanupExpiredContexts_all {p : ContextPool}
    (hav : p.available_contexts = p.all_contexts.map (fun e => e.id))
    (_hnd : (p.all_contexts.map (fun e => e.id)).Nodup) (now : Nat) :
    (p.CleanupExpiredContexts now).all_contexts =
      p.all_contexts.filter
        (fun e => decide (now - e.last_used < p.context_ttl)) := by
  have hcont : ∀ x ∈ p.all_contexts,
      (!(p.available_contexts.contains x.id) ||
        decide (now - x.last_used < p.context_ttl)) =
      decide (now - x.last_used < p.context_ttl) := by
    intro x hx
    have : p.available_contexts.contains x.id = true := by
      rw [hav]
      exact List.elem_eq_true_of_mem (List.mem_map.mpr ⟨x, hx, rfl⟩)
    rw [this]
    rfl
  simp only [ContextPool.CleanupExpiredContexts]
  exact List.filter_congr hcont

/-- Under the pool's structural invariant, the cleanup sweep keeps in the
available queue exactly the ids of the kept entries, in order. -/
lemma CleanupExpiredContexts_available {p : ContextPool}
    (hav : p.available_contexts = p.all_contexts.map (fun e => e.id))
    (hnd : (p.all_contexts.map (fun e => e.id)).Nodup) (now : Nat) :
    (p.CleanupExpiredContexts now).available_contexts =
      (p.all_contexts.filter
        (fun e => decide (now - e.last_used < p.context_ttl))).map
          (fun e => e.id) := by
  have hkq : ∀ x ∈ p.all_contexts,
      (match p.all_contexts.find? (fun e => e.id == x.id) with
       | some e => decide (now - e.last_used < p.context_ttl)
       | none => true) = decide (now - x.last_used < p.context_ttl) := by
    intro x hx
    rw [find_id_of_mem_nodup hx hnd]
  simp only [ContextPool.CleanupExpiredContexts, hav]
  exact filter_map_id hkq

lemma PoolSys.inv_step {s : PoolSys} (a : PoolAction) (hs : s.Inv) :
    (s.step a).Inv := by
  obtain ⟨hav, hnd, hbound, httl⟩ := hs
  cases a with
  | acquire now engineOk =>
    cases hall : s.pool.all_contexts with
    | nil =>
      have hava : s.pool.available_contexts = [] := by
        rw [hav, hall]; rfl
      have hacq : s.pool.AcquireContext now engineOk =
          if s.pool.all_contexts.length < s.pool.max_pool_size then
            s.pool.CreateNewContext now engineOk
          else (none, s.pool) := by
        simp only [ContextPool.AcquireContext, hava]
      by_cases hmax : s.pool.all_contexts.length < s.pool.max_pool_size
      · rw [if_pos hmax] at hacq
        cases engineOk with
        | false =>
          have hcr : s.pool.CreateNewContext now false = (none, s.pool) := by
            simp [ContextPool.CreateNewContext]
          rw [hcr] at hacq
          simp only [PoolSys.step, hacq]
          exact ⟨hav, hnd, hbound, httl⟩
        | true =>
          have hcr : s.pool.CreateNewContext now true =
              (some { id := s.pool.next_id
                      in_use := true
                      last_used := now
                      usage_count := 1 },
               { s.pool with next_id := s.pool.next_id + 1 }) := by
            simp [ContextPool.CreateNewContext]
          rw [hcr] at hacq
          simp only [PoolSys.step, hacq]
          refine ⟨hav, ?_, ?_, httl⟩
          · have hnotmem : s.pool.next_id ∉ s.held.map (fun e => e.id) := by
              intro hmem
              obtain ⟨e, he, hid⟩ := List.mem_map.mp hmem
              have := hbound e (List.mem_append.mpr (Or.inr he))
              omega
            have hnd' : (s.held.map (fun e => e.id)).Nodup := by
              rw [hall] at hnd
              simpa using hnd
            have hcons : (s.pool.next_id :: s.held.map (fun e => e.id)).Nodup :=
              List.nodup_cons.mpr ⟨hnotmem, hnd'⟩
            have hfinal : ((s.held.map (fun e => e.id)) ++ [s.pool.next_id]).Nodup :=
              ((List.perm_append_singleton s.pool.next_id
                (s.held.map (fun e => e.id))).symm).nodup hcons
            simpa [hall] using hfinal
          · intro e he
            show e.id < s.pool.next_id + 1
            simp only [List.mem_append, List.mem_singleton] at he
            rcases he with he | he | rfl
            · exact Nat.lt_succ_of_lt (hbound e (List.mem_append.mpr (Or.inl he)))
            · exact Nat.lt_succ_of_lt (hbound e (List.mem_append.mpr (Or.inr he)))
            · exact Nat.lt_succ_self _
      · rw [if_neg hmax] at hacq
        simp only [PoolSys.step, hacq]
        exact ⟨hav, hnd, hbound, httl⟩
    | cons E tl =>
      have hava : s.pool.available_contexts = E.id :: tl.map (fun e => e.id) := by
        rw [hav, hall]; rfl
      have hndall : (s.pool.all_contexts.map (fun e => e.id)).Nodup :=
        hnd.of_append_left
      have hfind : s.pool.all_contexts.find? (fun x => x.id == E.id) = some E :=
        find_id_of_mem_nodup (by rw [hall]; exact List.mem_cons_self E tl) hndall
      have hEnotmem : E.id ∉ tl.map (fun e => e.id) := by
        rw [hall] at hndall
        exact (List.nodup_cons.mp (by simpa using hndall)).1
      have hfilter : s.pool.all_contexts.filter (fun x => decide (x.id ≠ E.id)) = tl := by
        rw [hall]
        have h1 : List.filter (fun x => decide (x.id ≠ E.id)) (E :: tl) =
            List.filter (fun x => decide (x.id ≠ E.id)) tl := by
          simp [List.filter_cons]
        rw [h1]
        refine List.filter_eq_self.mpr (fun x hx => ?_)
        simp only [decide_eq_true_eq]
        intro hxe
        exact hEnotmem (hxe ▸ List.mem_map.mpr ⟨x, hx, rfl⟩)
      have hacq : s.pool.AcquireContext now engineOk =
          (some { E with
                    in_use := true
                    last_used := now
                    usage_count := E.usage_count + 1 },
           { s.pool with
              available_contexts := tl.map (fun e => e.id)
              all_contexts := tl }) := by
        simp only [ContextPool.AcquireContext, hava, hfind, hfilter]
      simp only [PoolSys.step, hacq]
      refine ⟨rfl, ?_, ?_, httl⟩
      · rw [hall] at hnd
        have hnd' : (E.id :: (tl.map (fun e => e.id) ++ s.held.map (fun e => e.id))).Nodup := by
          simpa using hnd
        have hperm := (List.perm_append_singleton E.id
          (tl.map (fun e => e.id) ++ s.held.map (fun e => e.id))).symm
        have hfinal := hperm.nodup hnd'
        simpa [List.append_assoc] using hfinal
      · intro e he
        show e.id < s.pool.next_id
        simp only [List.mem_append, List.mem_singleton] at he
        rcases he with he | he | rfl
        · exact hbound e (List.mem_append.mpr
            (Or.inl (by rw [hall]; exact List.mem_cons_of_mem E he)))
        · exact hbound e (List.mem_append.mpr (Or.inr he))
        · exact hbound E (List.mem_append.mpr
            (Or.inl (by rw [hall]; exact List.mem_cons_self E tl)))
  | release e now =>
    by_cases hmem : e ∈ s.held
    · simp only [PoolSys.step, if_pos hmem, ContextPool.ReleaseContext]
      refine ⟨?_, ?_, ?_, httl⟩
      · simp [hav]
      · have hperm1 : List.Perm (s.held.map (fun x => x.id))
            (e.id :: (s.held.erase e).map (fun x => x.id)) :=
          (List.perm_cons_erase hmem).map (fun x => x.id)
        have hperm2 : List.Perm
            (s.pool.all_contexts.map (fun x => x.id) ++ s.held.map (fun x => x.id))
            (s.pool.all_contexts.map (fun x => x.id) ++
              (e.id :: (s.held.erase e).map (fun x => x.id))) :=
          hperm1.append_left _
        have hfinal := hperm2.nodup hnd
        simpa [List.append_assoc] using hfinal
      · intro x hx
        simp only [List.mem_append] at hx
        rcases hx with (hx | hx) | hx
        · exact hbound x (List.mem_append.mpr (Or.inl hx))
        · simp only [List.mem_singleton] at hx
          subst hx
          exact hbound e (List.mem_append.mpr (Or.inr hmem))
        · exact hbound x (List.mem_append.mpr (Or.inr (List.mem_of_mem_erase hx)))
    · simp only [PoolSys.step, if_neg hmem]
      exact ⟨hav, hnd, hbound, httl⟩
  | cleanup now =>
    have hall' := CleanupExpiredContexts_all hav hnd.of_append_left now
    have havail' := CleanupExpiredContexts_available hav hnd.of_append_left now
    have hsub : (s.pool.CleanupExpiredContexts now).all_contexts.Sublist
        s.pool.all_contexts := by
      rw [hall']
      exact List.filter_sublist _
    refine ⟨?_, ?_, ?_, httl⟩
    · simp only [PoolSys.step]
      rw [havail', hall']
    · simp only [PoolSys.step]
      have hsubids : ((s.pool.CleanupExpiredContexts now).all_contexts.map (fun e => e.id) ++
          s.held.map (fun e => e.id)).Sublist
          (s.pool.all_contexts.map (fun e => e.id) ++ s.held.map (fun e => e.id)) :=
        (hsub.map _).append_right _
      exact hsubids.nodup hnd
    · simp only [PoolSys.step]
      intro x hx
      rcases List.mem_append.mp hx with hx | hx
      · have hx' : x ∈ s.pool.all_contexts := hsub.mem hx
        have : (s.pool.CleanupExpiredContexts now).next_id = s.pool.next_id := rfl
        rw [this]
        exact hbound x (List.mem_append.mpr (Or.inl hx'))
      · have : (s.pool.CleanupExpiredContexts now).next_id = s.pool.next_id := rfl
        rw [this]
        exact hbound x (List.mem_append.mpr (Or.inr hx))

lemma PoolSys.reachable_inv {s : PoolSys} (h : s.Reachable) : s.Inv := by
  induction h with
  | init m => exact PoolSys.inv_init m
  | step a _ ih => exact PoolSys.inv_step a ih

/-! ## Model registry: `SimpleModelManager` (llama_core.cpp lines 236-530)

`models_` is a `std::map<std::string, std::unique_ptr<LoadedModel>>`; we keep
it as an association list with unique names (uniqueness is part of the
well-formedness invariant).  The metrics atomics live in a
`PerformanceMetrics` field.  The llama backend, filesystem and model file
are collaborators, so their behaviour during one `LoadModel` call is an
explicit `LoadEnv`. -/

structure ModelConfig where
  model_path : String
  n_ctx : Nat
  n_batch : Nat
  n_threads : Nat
  n_gpu_layers : Nat
  use_mmap : Bool
  use_mlock : Bool
  embeddings : Bool
deriving DecidableEq, Repr

/-- `LoadedModel` (llama_core.hpp / lines 217-233): engine handle (opaque),
config, owned context pool, reference count, last-access stamp, estimated
memory footprint. -/
structure LoadedModel where
  config : ModelConfig
  pool : ContextPool
  reference_count : Nat
  last_access : Nat
  memory_usage_bytes : Nat
deriving DecidableEq, Repr

structure ManagerState where
  models : List (String × LoadedModel)
  metrics : PerformanceMetrics
  /-- `cleanup_thread_.joinable()` / `background_cleanup_enabled_`: the
  Janitor thread has been started. -/
  cleanup_running : Bool
  backend_initialized : Bool
  memory_limit_bytes : Nat
  max_context_pool_size : Nat
deriving DecidableEq, Repr

/-- Constructor (lines 243-251): `memory_limit_mb * 1024 * 1024`, no
background cleanup, backend not initialized.  `GetInstance` (236-241) uses
`(0, 10)`. -/
def ManagerState.init (memoryLimitMb maxContextPoolSize : Nat) : ManagerState :=
  { models := []
    metrics := { total_requests := 0, total_tokens_generated := 0,
                 total_generation_time_ms := 0, memory_usage_bytes := 0,
                 peak_memory_bytes := 0, active_contexts := 0, pool_size := 0 }
    cleanup_running := false
    backend_initialized := false
    memory_limit_bytes := memoryLimitMb * 1024 * 1024
    max_context_pool_size := maxContextPoolSize }

/-- `EstimateModelMemoryUsage` (lines 522-530): parameter count times two
bytes per parameter. -/
def EstimateModelMemoryUsage (nParams : Nat) : Nat := nParams * 2

/-- `CheckMemoryLimit` (lines 518-520). -/
def ManagerState.CheckMemoryLimit (s : ManagerState) : Bool :=
  s.memory_limit_bytes == 0 ||
    decide (s.metrics.memory_usage_bytes < s.memory_limit_bytes)

/-- Collaborator behaviour during one `LoadModel` call: whether
`llama_backend_init` succeeds, whether the model file exists, whether
`llama_model_load_from_file` succeeds, and the model's reported parameter
count. -/
structure LoadEnv where
  initOk : Bool
  fileExists : Bool
  engineOk : Bool
  n_params : Nat
deriving DecidableEq, Repr

/-- One constructor per `return` site of `LoadModel` (lines 304-369);
`success` and `alreadyLoaded` map to C++ `true`, the rest to `false`. -/
inductive LoadOutcome where
  | initFailed
  | alreadyLoaded
  | memoryLimitExceeded
  | fileNotFound
  | engineLoadFailed
  | success
deriving DecidableEq, Repr

def LoadOutcome.toBool : LoadOutcome → Bool
  | .success => true
  | .alreadyLoaded => true
  | _ => false

/-- Janitor start (lines 318-321): when the registry is empty and the
cleanup thread is not yet running, start it. -/
def ManagerState.startJanitorIfNeeded (s : ManagerState) : ManagerState :=
  if s.models.isEmpty && !s.cleanup_running then
    { s with cleanup_running := true }
  else s

@[simp] lemma startJanitor_models (s : ManagerState) :
    s.startJanitorIfNeeded.models = s.models := by
  unfold ManagerState.startJanitorIfNeeded
  split <;> rfl

@[simp] lemma startJanitor_metrics (s : ManagerState) :
    s.startJanitorIfNeeded.metrics = s.metrics := by
  unfold ManagerState.startJanitorIfNeeded
  split <;> rfl

@[simp] lemma startJanitor_backend (s : ManagerState) :
    s.startJanitorIfNeeded.backend_initialized = s.backend_initialized := by
  unfold ManagerState.startJanitorIfNeeded
  split <;> rfl

@[simp] lemma startJanitor_limit (s : ManagerState) :
    s.startJanitorIfNeeded.memory_limit_bytes = s.memory_limit_bytes := by
  unfold ManagerState.startJanitorIfNeeded
  split <;> rfl

@[simp] lemma startJanitor_maxpool (s : ManagerState) :
    s.startJanitorIfNeeded.max_context_pool_size = s.max_context_pool_size := by
  unfold ManagerState.startJanitorIfNeeded
  split <;> rfl

@[simp] lemma startJanitor_CheckMemoryLimit (s : ManagerState) :
    s.startJanitorIfNeeded.CheckMemoryLimit = s.CheckMemoryLimit := by
  unfold ManagerState.CheckMemoryLimit
  simp

lemma startJanitor_cleanup (s : ManagerState) :
    s.startJanitorIfNeeded.cleanup_running =
      ((s.models.isEmpty && !s.cleanup_running) || s.cleanup_running) := by
  unfold ManagerState.startJanitorIfNeeded
  cases he : s.models.isEmpty <;> cases hc : s.cleanup_running <;> simp [he, hc]

lemma startJanitor_of_ne_nil {s : ManagerState} (h : s.models ≠ []) :
    s.startJanitorIfNeeded = s := by
  unfold ManagerState.startJanitorIfNeeded
  have : s.models.isEmpty = false := by
    cases hh : s.models with
    | nil => exact absurd hh h
    | cons a tl => rfl
  simp [this]

/-- `LoadModel` (lines 304-369), in source order: backend init (307-309),
already-loaded no-op (312-315), Janitor start when the registry is empty and
the thread not yet running (318-321), memory-limit check (324-327), file
existence (330-333), engine load (342-346), then bookkeeping: estimate
memory, bump usage and peak, insert the model with a fresh pool (349-368). -/
def ManagerState.LoadModel (s : ManagerState) (name : String) (config : ModelConfig)
    (now : Nat) (env : LoadEnv) : LoadOutcome × ManagerState :=
  if s.backend_initialized || env.initOk then
    let s1 := { s with backend_initialized := true }
    if (s1.models.find? (fun p => p.1 == name)).isSome then
      (.alreadyLoaded, s1)
    else
      let s2 := s1.startJanitorIfNeeded
      if !s2.CheckMemoryLimit then
        (.memoryLimitExceeded, s2)
      else if !env.fileExists then
        (.fileNotFound, s2)
      else if !env.engineOk then
        (.engineLoadFailed, s2)
      else
        let size := EstimateModelMemoryUsage env.n_params
        let usage := s2.metrics.memory_usage_bytes + size
        (.success,
         { s2 with
             metrics := { s2.metrics with
               memory_usage_bytes := usage
               peak_memory_bytes := max s2.metrics.peak_memory_bytes usage }
             models := s2.models ++
               [(name,
                 { config := config
                   pool := ContextPool.init s2.max_context_pool_size
                   reference_count := 0
                   last_access := now
                   memory_usage_bytes := size })] })
  else
    (.initFailed, s)

inductive UnloadOutcome where
  | notFound
  /-- the poll loop `while (reference_count > 0) sleep(100ms)` (lines
  378-380) has not exited: the call has not completed.  (In this
  single-call shallow embedding no other thread can change the count while
  the call holds `models_mutex_`, so a blocked call stays blocked.) -/
  | blocked
  | unloaded
deriving DecidableEq, Repr

/-- `UnloadModel` (lines 371-411): unknown name returns `false` untouched;
with a live reference the call polls and does not complete; otherwise it
waits (bounded) for the pool to drain, discards the pool and the engine
handle, subtracts the tracked memory and erases the map entry, returning
`true`.  The bounded drain wait changes no registry state. -/
def ManagerState.UnloadModel (s : ManagerState) (name : String) :
    UnloadOutcome × ManagerState :=
  match s.models.find? (fun p => p.1 == name) with
  | none => (.notFound, s)
  | some p =>
    if 0 < p.2.reference_count then
      (.blocked, s)
    else
      (.unloaded,
       { s with
           metrics := { s.metrics with
             memory_usage_bytes :=
               s.metrics.memory_usage_bytes - p.2.memory_usage_bytes }
           models := s.models.eraseP (fun q => q.1 == name) })

/-- Apply `f` to the model registered under `name` (if any). -/
def ManagerState.updateModel (s : ManagerState) (name : String)
    (f : LoadedModel → LoadedModel) : ManagerState :=
  { s with models := s.models.map (fun p => if p.1 == name then (p.1, f p.2) else p) }

/-- `GetModel` (lines 413-427): unknown name yields no handle; otherwise the
reference count is incremented and `last_access` stamped.  The returned
shared handle's deleter is `ReleaseModelReference`. -/
def ManagerState.GetModel (s : ManagerState) (name : String) (now : Nat) :
    Bool × ManagerState :=
  match s.models.find? (fun p => p.1 == name) with
  | none => (false, s)
  | some _ =>
    (true, s.updateModel name (fun m =>
      { m with reference_count := m.reference_count + 1, last_access := now }))

/-- `ReleaseModelReference` (lines 510-516): decrement if present. -/
def ManagerState.ReleaseModelReference (s : ManagerState) (name : String) :
    ManagerState :=
  match s.models.find? (fun p => p.1 == name) with
  | none => s
  | some _ =>
    s.updateModel name (fun m =>
      { m with reference_count := m.reference_count - 1 })

/-- `IsModelLoaded` (lines 434-437). -/
def ManagerState.IsModelLoaded (s : ManagerState) (name : String) : Bool :=
  (s.models.find? (fun p => p.1 == name)).isSome

/-- `GetLoadedModelCount` (lines 439-442). -/
def ManagerState.GetLoadedModelCount (s : ManagerState) : Nat := s.models.length

/-- `GetLoadedModelNames` (lines 444-452). -/
def ManagerState.GetLoadedModelNames (s : ManagerState) : List String :=
  s.models.map (fun p => p.1)

/-- `GetMetrics` (lines 454-464): plain-value snapshot of the atomics. -/
def ManagerState.GetMetrics (s : ManagerState) : PerformanceSnapshot :=
  { total_requests := s.metrics.total_requests
    total_tokens_generated := s.metrics.total_tokens_generated
    total_generation_time_ms := s.metrics.total_generation_time_ms
    memory_usage_bytes := s.metrics.memory_usage_bytes
    peak_memory_bytes := s.metrics.peak_memory_bytes
    active_contexts := s.metrics.active_contexts
    pool_size := s.metrics.pool_size }

/-- Well-formedness of registry states, maintained by every registry
operation: the tracked memory usage is the sum of the loaded models'
estimates, a non-empty registry has a running Janitor and an initialized
backend, and model names are unique. -/
def MgrWF (s : ManagerState) : Prop :=
  s.metrics.memory_usage_bytes =
    (s.models.map (fun p => p.2.memory_usage_bytes)).sum
  ∧ (s.models ≠ [] → s.cleanup_running = true ∧ s.backend_initialized = true)
  ∧ (s.models.map (fun p => p.1)).Nodup

lemma MgrWF_init (limitMb maxPool : Nat) : MgrWF (ManagerState.init limitMb maxPool) := by
  refine ⟨rfl, fun h => absurd rfl h, by simp [ManagerState.init]⟩

/-- On an initialized backend, `LoadModel` for an already-present name is the
identity on the state and reports the C++ `true` ("already loaded", lines
312-315). -/
lemma LoadModel_already {s : ManagerState} {name : String} {config : ModelConfig}
    {now : Nat} {env : LoadEnv}
    (hb : s.backend_initialized = true)
    (hf : (s.models.find? (fun p => p.1 == name)).isSome = true) :
    s.LoadModel name config now env = (.alreadyLoaded, s) := by
  have hs1 : ({ s with backend_initialized := true } : ManagerState) = s := by
    rw [← hb]
  unfold ManagerState.LoadModel
  simp [hs1, hb, hf]

/-- With an initialized backend, a non-empty registry, a fresh name and a
failing memory check, `LoadModel` fails with the memory-limit outcome and
returns the state unchanged (the Janitor is not re-started because the
registry is not empty, lines 318-327). -/
lemma LoadModel_memoryLimit {s : ManagerState} {name : String} {config : ModelConfig}
    {now : Nat} {env : LoadEnv}
    (hb : s.backend_initialized = true)
    (hne : s.models ≠ [])
    (hfind : s.models.find? (fun p => p.1 == name) = none)
    (hmem : s.CheckMemoryLimit = false) :
    s.LoadModel name config now env = (.memoryLimitExceeded, s) := by
  have hs1 : ({ s with backend_initialized := true } : ManagerState) = s := by
    rw [← hb]
  unfold ManagerState.LoadModel
  simp [hs1, hb, hfind, hmem, startJanitor_of_ne_nil hne]

/-- Inversion of a successful `LoadModel`: the name was fresh, the backend
ended initialized, the configured limits are untouched, and the registry
gained exactly one entry under `name` at the end. -/
lemma LoadModel_success_inv {s : ManagerState} {name : String} {config : ModelConfig}
    {now : Nat} {env : LoadEnv} {s' : ManagerState}
    (h : s.LoadModel name config now env = (.success, s')) :
    s.models.find? (fun p => p.1 == name) = none ∧
    s'.backend_initialized = true ∧
    s'.memory_limit_bytes = s.memory_limit_bytes ∧
    s'.max_context_pool_size = s.max_context_pool_size ∧
    ∃ M : LoadedModel, s'.models = s.models ++ [(name, M)] := by
  simp only [ManagerState.LoadModel] at h
  split at h
  · split at h
    · simp at h
    · rename_i hfind
      split at h
      · simp at h
      · split at h
        · simp at h
        · split at h
          · simp at h
          · have hstate := congrArg Prod.snd h
            simp only at hstate
            refine ⟨?_, ?_, ?_, ?_, ?_⟩
            · exact Option.not_isSome_iff_eq_none.mp (by simpa using hfind)
            · rw [← hstate]
              simp
            · rw [← hstate]
              simp
            · rw [← hstate]
              simp
            · refine ⟨{ config := config
                        pool := ContextPool.init s.max_context_pool_size
                        reference_count := 0
                        last_access := now
                        memory_usage_bytes := EstimateModelMemoryUsage env.n_params }, ?_⟩
              rw [← hstate]
              simp
  · simp at h

lemma nodup_snoc {α : Type} {l : List α} {a : α} (h : a ∉ l) (hl : l.Nodup) :
    (l ++ [a]).Nodup :=
  ((List.perm_append_singleton a l).symm).nodup (List.nodup_cons.mpr ⟨h, hl⟩)

/-- Erasing the entry that `find?` located removes exactly its contribution
from any additive projection of the list. -/
lemma sum_map_eraseP_of_find? {α : Type} {pred : α → Bool} {f : α → Nat} :
    ∀ {l : List α} {x : α}, l.find? pred = some x →
      (l.map f).sum = ((l.eraseP pred).map f).sum + f x := by
  intro l
  induction l with
  | nil => intro x h; simp at h
  | cons a tl ih =>
    intro x h
    cases hp : pred a with
    | true =>
      rw [List.find?_cons_of_pos _ hp] at h
      obtain rfl : a = x := by injection h
      simp [hp, Nat.add_comm]
    | false =>
      rw [List.find?_cons_of_neg _ (by simp [hp])] at h
      simp [hp, ih h, Nat.add_assoc]

lemma MgrWF_LoadModel {s : ManagerState} (hwf : MgrWF s) (name : String)
    (config : ModelConfig) (now : Nat) (env : LoadEnv) :
    MgrWF (s.LoadModel name config now env).2 := by
  obtain ⟨hsum, hjan, hnames⟩ := hwf
  simp only [ManagerState.LoadModel]
  split
  · split
    · exact ⟨hsum, fun hne => ⟨(hjan (by simpa using hne)).1, rfl⟩, hnames⟩
    · rename_i hfind
      split
      · refine ⟨by simpa using hsum, fun hne => ⟨?_, by simp⟩, by simpa using hnames⟩
        have hne' : s.models ≠ [] := by simpa using hne
        have hempty : s.models.isEmpty = false := by
          cases hh : s.models with
          | nil => exact absurd hh hne'
          | cons a tl => rfl
        simp [startJanitor_cleanup, hempty, (hjan hne').1]
      · split
        · refine ⟨by simpa using hsum, fun hne => ⟨?_, by simp⟩, by simpa using hnames⟩
          have hne' : s.models ≠ [] := by simpa using hne
          have hempty : s.models.isEmpty = false := by
            cases hh : s.models with
            | nil => exact absurd hh hne'
            | cons a tl => rfl
          simp [startJanitor_cleanup, hempty, (hjan hne').1]
        · split
          · refine ⟨by simpa using hsum, fun hne => ⟨?_, by simp⟩, by simpa using hnames⟩
            have hne' : s.models ≠ [] := by simpa using hne
            have hempty : s.models.isEmpty = false := by
              cases hh : s.models with
              | nil => exact absurd hh hne'
              | cons a tl => rfl
            simp [startJanitor_cleanup, hempty, (hjan hne').1]
          · refine ⟨by simp [hsum], fun _ => ⟨?_, by simp⟩, ?_⟩
            · cases hsm : s.models with
              | nil =>
                cases hc : s.cleanup_running <;>
                  simp [startJanitor_cleanup, hsm, hc]
              | cons a tl =>
                have : s.cleanup_running = true := (hjan (by simp [hsm])).1
                simp [startJanitor_cleanup, hsm, this]
            · have hnotin : name ∉ s.models.map (fun p => p.1) := by
                intro hmem
                obtain ⟨p, hp, hpname⟩ := List.mem_map.mp hmem
                have hnone : s.models.find? (fun p => p.1 == name) = none :=
                  Option.not_isSome_iff_eq_none.mp (by simpa using hfind)
                have := List.find?_eq_none.mp hnone p hp
                simp [hpname] at this
              simpa using nodup_snoc hnotin hnames
  · exact ⟨hsum, hjan, hnames⟩

lemma MgrWF_UnloadModel {s : ManagerState} (hwf : MgrWF s) (name : String) :
    MgrWF (s.UnloadModel name).2 := by
  obtain ⟨hsum, hjan, hnames⟩ := hwf
  unfold ManagerState.UnloadModel
  cases hfind : s.models.find? (fun p => p.1 == name) with
  | none => exact ⟨hsum, hjan, hnames⟩
  | some p =>
    by_cases hrc : 0 < p.2.reference_count
    · simp only [if_pos hrc]
      exact ⟨hsum, hjan, hnames⟩
    · simp only [if_neg hrc]
      have hsplit : (s.models.map (fun q => q.2.memory_usage_bytes)).sum =
          ((s.models.eraseP (fun q => q.1 == name)).map
            (fun q => q.2.memory_usage_bytes)).sum + p.2.memory_usage_bytes := by
        simpa using sum_map_eraseP_of_find?
          (f := fun q => q.2.memory_usage_bytes) hfind
      refine ⟨?_, ?_, ?_⟩
      · show s.metrics.memory_usage_bytes - p.2.memory_usage_bytes =
          ((s.models.eraseP (fun q => q.1 == name)).map
            (fun q => q.2.memory_usage_bytes)).sum
        omega
      · intro hne
        have hne' : s.models ≠ [] := by
          intro hnil
          apply hne
          show s.models.eraseP (fun q => q.1 == name) = []
          simp [hnil]
        exact hjan hne'
      · have hsub : (s.models.eraseP (fun q => q.1 == name)).Sublist s.models :=
          List.eraseP_sublist s.models
        exact ((hsub.map (fun q => q.1))).nodup hnames

lemma updateModel_fst (s : ManagerState) (name : String) (f : LoadedModel → LoadedModel) :
    (s.updateModel name f).models.map (fun p => p.1) = s.models.map (fun p => p.1) := by
  show ((s.models.map (fun p => if p.1 == name then (p.1, f p.2) else p)).map
    (fun p => p.1)) = s.models.map (fun p => p.1)
  rw [List.map_map]
  apply List.map_congr_left
  intro p _
  simp only [Function.comp_apply]
  split <;> rfl

lemma updateModel_sizes (s : ManagerState) (name : String)
    (f : LoadedModel → LoadedModel)
    (hf : ∀ m, (f m).memory_usage_bytes = m.memory_usage_bytes) :
    (s.updateModel name f).models.map (fun p => p.2.memory_usage_bytes) =
      s.models.map (fun p => p.2.memory_usage_bytes) := by
  show ((s.models.map (fun p => if p.1 == name then (p.1, f p.2) else p)).map
    (fun p => p.2.memory_usage_bytes)) = s.models.map (fun p => p.2.memory_usage_bytes)
  rw [List.map_map]
  apply List.map_congr_left
  intro p _
  simp only [Function.comp_apply]
  split
  · exact hf p.2
  · rfl

lemma MgrWF_updateModel {s : ManagerState} (hwf : MgrWF s) (name : String)
    (f : LoadedModel → LoadedModel)
    (hf : ∀ m, (f m).memory_usage_bytes = m.memory_usage_bytes) :
    MgrWF (s.updateModel name f) := by
  obtain ⟨hsum, hjan, hnames⟩ := hwf
  refine ⟨?_, ?_, ?_⟩
  · show s.metrics.memory_usage_bytes = _
    rw [updateModel_sizes s name f hf]
    exact hsum
  · intro hne
    have hne' : s.models ≠ [] := by
      intro hnil
      apply hne
      show s.models.map _ = []
      simp [hnil]
    exact hjan hne'
  · rw [updateModel_fst]
    exact hnames

lemma MgrWF_GetModel {s : ManagerState} (hwf : MgrWF s) (name : String) (now : Nat) :
    MgrWF (s.GetModel name now).2 := by
  unfold ManagerState.GetModel
  cases s.models.find? (fun p => p.1 == name) with
  | none => exact hwf
  | some p => exact MgrWF_updateModel hwf name _ (fun m => rfl)

lemma MgrWF_ReleaseModelReference {s : ManagerState} (hwf : MgrWF s) (name : String) :
    MgrWF (s.ReleaseModelReference name) := by
  unfold ManagerState.ReleaseModelReference
  cases s.models.find? (fun p => p.1 == name) with
  | none => exact hwf
  | some p => exact MgrWF_updateModel hwf name _ (fun m => rfl)

/-! ## Generation (llama_core.cpp lines 566-664)

`Generate` looks the model up (`GetModel`, which bumps the reference count,
stamps `last_access`, and hands back a scoped handle whose deleter
`ReleaseModelReference` runs when the call returns — the net reference-count
effect of one completed call is nil, so only the `last_access` stamp
persists here), acquires a pool context, counts the request, and runs
tokenize / prompt decode / the sampling loop, releasing the context on every
path out, including the `catch` block. -/

/-- Engine behaviour during one `Generate` call.  `throws` stands for "some
engine call inside the `try` block raises a C++ exception" (the `catch`
at lines 658-663 handles it); `tokenize` covers the two-attempt
`llama_tokenize` protocol (`none` = the retry also failed, `n_tokens <= 0`);
per-iteration behaviour of the sampling loop is indexed by the iteration
counter. -/
structure GenOracle where
  engineOk : Bool
  throws : Bool
  tokenize : String → Option (List Int)
  promptDecodeOk : Bool
  isEog : Nat → Bool
  sampled : Nat → Int
  pieceLen : Nat → Int
  pieceStr : Nat → String
  stepDecodeOk : Nat → Bool
  durationMs : Nat

/-- One constructor per `return` site of `Generate`. -/
inductive GenOutcome where
  | modelNotFound
  | noContext
  | tokenizeFailed
  | promptDecodeFailed
  | ok (text : String)
  | exceptionCaught
deriving DecidableEq, Repr

/-- Sampling loop (lines 618-645): for each iteration below `max_tokens`,
sample; stop at an end-of-generation token; append the piece when
`llama_token_to_piece` returns a positive length (counting it); feed the
token back; stop if that decode fails. -/
def genLoop (o : GenOracle) : Nat → Nat → String → Nat → String × Nat
  | 0, _, acc, cnt => (acc, cnt)
  | fuel + 1, i, acc, cnt =>
    if o.isEog i then (acc, cnt)
    else
      let acc' := if 0 < o.pieceLen i then acc ++ o.pieceStr i else acc
      let cnt' := if 0 < o.pieceLen i then cnt + 1 else cnt
      if o.stepDecodeOk i then genLoop o fuel (i + 1) acc' cnt'
      else (acc', cnt')

/-- Result of one `Generate` call, instrumented with how the acquired
context was handed back: `acquired` records whether `AcquireContext`
returned an entry, `releases` counts the `ReleaseContext` calls performed on
it. -/
structure GenCall where
  outcome : GenOutcome
  state : ManagerState
  acquired : Bool
  releases : Nat
deriving DecidableEq, Repr

def ManagerState.Generate (s : ManagerState) (name prompt : String)
    (maxTokens now : Nat) (o : GenOracle) : GenCall :=
  match s.models.find? (fun p => p.1 == name) with
  | none => { outcome := .modelNotFound, state := s, acquired := false, releases := 0 }
  | some p =>
    let s0 := s.updateModel name (fun mm => { mm with last_access := now })
    let (entry?, pool') := p.2.pool.AcquireContext now o.engineOk
    let s1 := s0.updateModel name (fun mm => { mm with pool := pool' })
    match entry? with
    | none => { outcome := .noContext, state := s1, acquired := false, releases := 0 }
    | some entry =>
      let s2 := { s1 with metrics :=
        { s1.metrics with total_requests := s1.metrics.total_requests + 1 } }
      let rel := fun (st : ManagerState) => st.updateModel name
        (fun mm => { mm with pool := mm.pool.ReleaseContext entry now })
      if o.throws then
        { outcome := .exceptionCaught, state := rel s2, acquired := true, releases := 1 }
      else
        match o.tokenize prompt with
        | none =>
          { outcome := .tokenizeFailed, state := rel s2, acquired := true, releases := 1 }
        | some _ =>
          if !o.promptDecodeOk then
            { outcome := .promptDecodeFailed, state := rel s2, acquired := true, releases := 1 }
          else
            let (text, cnt) := genLoop o maxTokens 0 "" 0
            let s3 := { s2 with metrics := { s2.metrics with
              total_generation_time_ms :=
                s2.metrics.total_generation_time_ms + o.durationMs
              total_tokens_generated :=
                s2.metrics.total_tokens_generated + cnt } }
            { outcome := .ok text, state := rel s3, acquired := true, releases := 1 }

/-! ## Chat completion (llama_core.cpp lines 666-684) -/

structure ChatMessage where
  role : String
  content : String
deriving DecidableEq, Repr

/-- Prompt formatting loop of `ChatCompletion` (lines 670-680), followed by
the trailing `"Assistant: "` (line 680). -/
def chatPrompt (messages : List ChatMessage) : String :=
  messages.foldl
    (fun prompt message =>
      if message.role == "system" then
        prompt ++ "System: " ++ message.content ++ "\n"
      else if message.role == "user" then
        prompt ++ "User: " ++ message.content ++ "\n"
      else if message.role == "assistant" then
        prompt ++ "Assistant: " ++ message.content ++ "\n"
      else prompt)
    ""

/-- `ChatCompletion` (lines 666-684): format the transcript, then delegate
to `Generate`. -/
def ManagerState.ChatCompletion (s : ManagerState) (name : String)
    (messages : List ChatMessage) (maxTokens now : Nat) (o : GenOracle) : GenCall :=
  s.Generate name (chatPrompt messages ++ "Assistant: ") maxTokens now o

/-- The prompt as the specification describes it: the concatenation, in
message order, of one role-tagged line per system/user/assistant message
(other roles contribute nothing), followed by a trailing `"Assistant: "`.
This is the spec-side description to be compared with `chatPrompt`. -/
def chatPromptSpec (messages : List ChatMessage) : String :=
  String.join (messages.map (fun m =>
    if m.role == "system" then "System: " ++ m.content ++ "\n"
    else if m.role == "user" then "User: " ++ m.content ++ "\n"
    else if m.role == "assistant" then "Assistant: " ++ m.content ++ "\n"
    else "")) ++ "Assistant: "

/-! ## Embeddings (llama_core.cpp lines 686-755) -/

structure EmbOracle where
  engineOk : Bool
  throws : Bool
  tokenize : String → Option (List Int)
  decodeOk : Bool
  /-- `llama_get_embeddings` result; `none` = null pointer.  Embedding
  values are opaque pass-through data; they are represented by their bit
  patterns as `Int`. -/
  embeddings : Option (List Int)

inductive EmbOutcome where
  | modelNotFound
  | noContext
  | tokenizeFailed
  | decodeFailed
  | nullEmbeddings
  | exceptionCaught
  | ok (v : List Int)
deriving DecidableEq, Repr

structure EmbCall where
  outcome : EmbOutcome
  state : ManagerState
  acquired : Bool
  releases : Nat
deriving DecidableEq, Repr

/-- `GetEmbeddings` (lines 686-755): lookup, acquire, tokenize, decode,
read the embedding vector (null check), release on every path out
including the `catch` (lines 749-754).  No metrics are touched. -/
def ManagerState.GetEmbeddings (s : ManagerState) (name text : String)
    (now : Nat) (o : EmbOracle) : EmbCall :=
  match s.models.find? (fun p => p.1 == name) with
  | none => { outcome := .modelNotFound, state := s, acquired := false, releases := 0 }
  | some p =>
    let s0 := s.updateModel name (fun mm => { mm with last_access := now })
    let (entry?, pool') := p.2.pool.AcquireContext now o.engineOk
    let s1 := s0.updateModel name (fun mm => { mm with pool := pool' })
    match entry? with
    | none => { outcome := .noContext, state := s1, acquired := false, releases := 0 }
    | some entry =>
      let rel := fun (st : ManagerState) => st.updateModel name
        (fun mm => { mm with pool := mm.pool.ReleaseContext entry now })
      if o.throws then
        { outcome := .exceptionCaught, state := rel s1, acquired := true, releases := 1 }
      else
        match o.tokenize text with
        | none =>
          { outcome := .tokenizeFailed, state := rel s1, acquired := true, releases := 1 }
        | some _ =>
          if !o.decodeOk then
            { outcome := .decodeFailed, state := rel s1, acquired := true, releases := 1 }
          else
            match o.embeddings with
            | none =>
              { outcome := .nullEmbeddings, state := rel s1, acquired := true, releases := 1 }
            | some v =>
              { outcome := .ok v, state := rel s1, acquired := true, releases := 1 }

/-! ## Streaming sessions (llama_core.cpp lines 793-964)

The generation task body of `StreamingSession::StartGeneration` runs on its
own thread; here it is the straight-line function of the engine oracle,
producing the ordered sequence of tokens pushed onto the session queue. -/

/-- A queued stream token; the `float` probability field is opaque
pass-through data and is not relevant to any claim, so it is omitted. -/
structure StreamToken where
  text : String
  is_final : Bool
  token_id : Int
deriving DecidableEq, Repr

/-- The synthetic final token `StreamToken{"", true, 0.0f, -1}` (line 926). -/
def finalStreamToken : StreamToken :=
  { text := "", is_final := true, token_id := -1 }

structure StreamOracle where
  engineOk : Bool
  tokenize : String → Option (List Int)
  promptDecodeOk : Bool
  /-- the `finished` flag observed true at the top of iteration `i`
  (external `Stop`). -/
  stopObserved : Nat → Bool
  isEog : Nat → Bool
  sampled : Nat → Int
  pieceLen : Nat → Int
  pieceStr : Nat → String
  stepDecodeOk : Nat → Bool
  /-- an engine call raises at iteration `i` of the loop (caught at lines
  934-939). `none`: no exception. -/
  throwAt : Option Nat

inductive LoopExit where
  | maxTokens
  | stopped
  | eog
  | decodeFailed
  | threw
deriving DecidableEq, Repr

/-- The token loop (lines 857-921): while below `max_tokens` and not
stopped: sample (where an exception may strike); break on end-of-generation;
build the piece text (falling back to `"[UNK]"` on a non-positive piece
length); enqueue a non-final token; feed the token back, setting the error
flag and breaking if that decode fails. -/
def streamLoop (o : StreamOracle) : Nat → Nat → List StreamToken →
    List StreamToken × LoopExit
  | 0, _, acc => (acc, .maxTokens)
  | fuel + 1, i, acc =>
    if o.stopObserved i then (acc, .stopped)
    else if o.throwAt = some i then (acc, .threw)
    else if o.isEog i then (acc, .eog)
    else
      let text := if 0 < o.pieceLen i then o.pieceStr i else "[UNK]"
      let acc' := acc ++ [{ text := text, is_final := false, token_id := o.sampled i }]
      if o.stepDecodeOk i then streamLoop o fuel (i + 1) acc'
      else (acc', .decodeFailed)

inductive StreamOutcome where
  | modelNotFound
  | noContext
  | tokenizeFailed
  | promptDecodeFailed
  | exceptionCaught
  /-- loop left by a failed feed-back decode: error flagged, but the
  synthetic final token is still enqueued. -/
  | completedDecodeFailed
  | completed
deriving DecidableEq, Repr

/-- Result of one streaming generation task, instrumented: `emitted` is the
orderly sequence pushed onto the queue; `releases` counts `ReleaseContext`
calls on the acquired entry; `destroyed` records the entry being freed by
stack unwinding in the `catch` path (the `unique_ptr` destructor frees the
context instead of returning it to the pool). -/
structure StreamRun where
  emitted : List StreamToken
  outcome : StreamOutcome
  acquired : Bool
  releases : Nat
  destroyed : Bool
  error : Bool
  finished : Bool
  state : ManagerState
deriving DecidableEq, Repr

/-- `StreamingSession::StartGeneration` task body (lines 800-941): model
lookup (error path enqueues nothing), context acquisition (ditto), prompt
tokenize and decode (each releases the context and enqueues nothing on
failure), then the token loop; on every loop exit except an exception the
synthetic final token is enqueued and the context released; the `catch`
block (934-939) flags the error and finishes without enqueueing a final
token — the acquired entry is destroyed by unwinding, not released. -/
def ManagerState.StartGeneration (s : ManagerState) (name prompt : String)
    (maxTokens now : Nat) (o : StreamOracle) : StreamRun :=
  match s.models.find? (fun p => p.1 == name) with
  | none =>
    { emitted := [], outcome := .modelNotFound, acquired := false, releases := 0,
      destroyed := false, error := true, finished := true, state := s }
  | some p =>
    let s0 := s.updateModel name (fun mm => { mm with last_access := now })
    let (entry?, pool') := p.2.pool.AcquireContext now o.engineOk
    let s1 := s0.updateModel name (fun mm => { mm with pool := pool' })
    match entry? with
    | none =>
      { emitted := [], outcome := .noContext, acquired := false, releases := 0,
        destroyed := false, error := true, finished := true, state := s1 }
    | some entry =>
      let rel := fun (st : ManagerState) => st.updateModel name
        (fun mm => { mm with pool := mm.pool.ReleaseContext entry now })
      match o.tokenize prompt with
      | none =>
        { emitted := [], outcome := .tokenizeFailed, acquired := true, releases := 1,
          destroyed := false, error := true, finished := true, state := rel s1 }
      | some _ =>
        if !o.promptDecodeOk then
          { emitted := [], outcome := .promptDecodeFailed, acquired := true, releases := 1,
            destroyed := false, error := true, finished := true, state := rel s1 }
        else
          match streamLoop o maxTokens 0 [] with
          | (toks, .threw) =>
            { emitted := toks, outcome := .exceptionCaught, acquired := true,
              releases := 0, destroyed := true, error := true, finished := true,
              state := s1 }
          | (toks, .decodeFailed) =>
            { emitted := toks ++ [finalStreamToken], outcome := .completedDecodeFailed,
              acquired := true, releases := 1, destroyed := false, error := true,
              finished := true, state := rel s1 }
          | (toks, _) =>
            { emitted := toks ++ [finalStreamToken], outcome := .completed,
              acquired := true, releases := 1, destroyed := false, error := false,
              finished := true, state := rel s1 }

/-- `GetNextToken` (lines 943-956): the consumer waits until the queue is
non-empty or the session finished; a non-empty queue pops and returns its
front, otherwise (only once finished) the call reports `false`. -/
def GetNextToken (queue : List StreamToken) : Option (StreamToken × List StreamToken) :=
  match queue with
  | t :: rest => some (t, rest)
  | [] => none

/-! ## Helper lemmas for the claims -/

lemma string_foldl_append :
    ∀ (l : List String) (acc : String),
      l.foldl (fun a b => a ++ b) acc = acc ++ String.join l
  | [], acc => (String.append_empty acc).symm
  | s :: tl, acc => by
    show tl.foldl (fun a b => a ++ b) (acc ++ s) =
      acc ++ tl.foldl (fun a b => a ++ b) ("" ++ s)
    rw [string_foldl_append tl (acc ++ s), string_foldl_append tl ("" ++ s)]
    rw [String.empty_append, String.append_assoc]

lemma string_join_cons (s : String) (l : List String) :
    String.join (s :: l) = s ++ String.join l := by
  show l.foldl (fun a b => a ++ b) ("" ++ s) = s ++ String.join l
  rw [string_foldl_append l ("" ++ s), String.empty_append]

/-- The formatting fold of `ChatCompletion`, started from any accumulator,
appends exactly the per-message role-tagged lines. -/
lemma chatPrompt_shift (messages : List ChatMessage) :
    ∀ acc : String,
      messages.foldl
        (fun prompt message =>
          if message.role == "system" then
            prompt ++ "System: " ++ message.content ++ "\n"
          else if message.role == "user" then
            prompt ++ "User: " ++ message.content ++ "\n"
          else if message.role == "assistant" then
            prompt ++ "Assistant: " ++ message.content ++ "\n"
          else prompt)
        acc
      = acc ++ String.join (messages.map (fun m =>
          if m.role == "system" then "System: " ++ m.content ++ "\n"
          else if m.role == "user" then "User: " ++ m.content ++ "\n"
          else if m.role == "assistant" then "Assistant: " ++ m.content ++ "\n"
          else "")) := by
  induction messages with
  | nil =>
    intro acc
    exact (String.append_empty acc).symm
  | cons m tl ih =>
    intro acc
    rw [List.foldl_cons, List.map_cons, string_join_cons, ih]
    by_cases h1 : (m.role == "system") = true
    · simp only [if_pos h1, String.append_assoc]
    · by_cases h2 : (m.role == "user") = true
      · simp only [if_neg h1, if_pos h2, String.append_assoc]
      · by_cases h3 : (m.role == "assistant") = true
        · simp only [if_neg h1, if_neg h2, if_pos h3, String.append_assoc]
        · simp only [if_neg h1, if_neg h2, if_neg h3, String.empty_append]

lemma chatPrompt_eq (messages : List ChatMessage) :
    chatPrompt messages = String.join (messages.map (fun m =>
      if m.role == "system" then "System: " ++ m.content ++ "\n"
      else if m.role == "user" then "User: " ++ m.content ++ "\n"
      else if m.role == "assistant" then "Assistant: " ++ m.content ++ "\n"
      else "")) := by
  unfold chatPrompt
  rw [chatPrompt_shift messages ""]
  exact String.empty_append _

/-- Every token pushed inside the streaming loop is non-final. -/
lemma streamLoop_no_final (o : StreamOracle) :
    ∀ (fuel i : Nat) (acc : List StreamToken),
      (∀ t ∈ acc, t.is_final = false) →
      ∀ t ∈ (streamLoop o fuel i acc).1, t.is_final = false := by
  intro fuel
  induction fuel with
  | zero => intro i acc hacc; exact hacc
  | succ fuel ih =>
    intro i acc hacc
    unfold streamLoop
    split
    · exact hacc
    · split
      · exact hacc
      · split
        · exact hacc
        · have hacc' : ∀ t ∈ acc ++
              [{ text := if 0 < o.pieceLen i then o.pieceStr i else "[UNK]",
                 is_final := false, token_id := o.sampled i }],
              t.is_final = false := by
            intro t ht
            rcases List.mem_append.mp ht with ht | ht
            · exact hacc t ht
            · simp only [List.mem_singleton] at ht
              subst ht
              rfl
          by_cases hd : o.stepDecodeOk i = true
          · simpa [hd] using ih (i + 1) _ hacc'
          · simpa [hd] using hacc'

/-! ## Concrete fixtures used by the witnesses and counterexamples -/

def mNm : String := "tiny"

def nameB : String := "extra"

def samplePrompt : String := "hello"

def sampleConfig : ModelConfig :=
  { model_path := "/models/tiny.gguf"
    n_ctx := 512
    n_batch := 32
    n_threads := 4
    n_gpu_layers := 0
    use_mmap := true
    use_mlock := false
    embeddings := false }

def sampleConfig2 : ModelConfig := { sampleConfig with n_ctx := 1024 }

def envOk : LoadEnv :=
  { initOk := true, fileExists := true, engineOk := true, n_params := 25 }

/-- A model whose estimated footprint (2 bytes per parameter) exceeds a
1 MB limit. -/
def envBig : LoadEnv :=
  { initOk := true, fileExists := true, engineOk := true, n_params := 1000000 }

def sampleModel (rc size : Nat) : LoadedModel :=
  { config := sampleConfig
    pool := ContextPool.init 10
    reference_count := rc
    last_access := 0
    memory_usage_bytes := size }

def mgrC5 : ManagerState :=
  { models := [(mNm, sampleModel 1 50)]
    metrics := { total_requests := 0, total_tokens_generated := 0,
                 total_generation_time_ms := 0, memory_usage_bytes := 50,
                 peak_memory_bytes := 50, active_contexts := 0, pool_size := 0 }
    cleanup_running := true
    backend_initialized := true
    memory_limit_bytes := 0
    max_context_pool_size := 10 }

def mgrC2 : ManagerState :=
  { models := [(mNm, sampleModel 0 2000000)]
    metrics := { total_requests := 0, total_tokens_generated := 0,
                 total_generation_time_ms := 0, memory_usage_bytes := 2000000,
                 peak_memory_bytes := 2000000, active_contexts := 0, pool_size := 0 }
    cleanup_running := true
    backend_initialized := true
    memory_limit_bytes := 1048576
    max_context_pool_size := 10 }

/-- Streaming oracle for a healthy engine that never stops, never hits an
end-of-generation token, and never throws. -/
def oracleStreamOk : StreamOracle :=
  { engineOk := true
    tokenize := fun _ => some [1, 2]
    promptDecodeOk := true
    stopObserved := fun _ => false
    isEog := fun _ => false
    sampled := fun _ => 7
    pieceLen := fun _ => 1
    pieceStr := fun _ => "a"
    stepDecodeOk := fun _ => true
    throwAt := none }

/-- Same engine, but an exception strikes at the first loop iteration. -/
def oracleStreamThrow : StreamOracle := { oracleStreamOk with throwAt := some 0 }

/-! ## Claim theorems -/

/-- C10: the derived metric averages are total: `GetAverageLatencyMs`
returns `total_generation_time_ms / total_requests` when
`total_requests > 0` (the divisor being provably non-zero there) and `0`
otherwise, and `GetAverageTokensPerSecond` returns
`(total_tokens_generated / total_generation_time_ms) * 1000` when both
`total_requests > 0` and `total_generation_time_ms > 0` (again with a
non-zero divisor) and `0` otherwise — for both `PerformanceMetrics` and
`PerformanceSnapshot`.  The division-by-zero branch is unreachable: each
division happens only under its positivity guard. -/
theorem C10_metric_averages_total (m : PerformanceMetrics) (sn : PerformanceSnapshot) :
    (0 < m.total_requests ∧ 0 < m.total_generation_time_ms →
      m.GetAverageTokensPerSecond * (m.total_generation_time_ms : ℚ) =
        (m.total_tokens_generated : ℚ) * 1000 ∧
      ((m.total_generation_time_ms : ℚ) ≠ 0)) ∧
    (¬(0 < m.total_requests ∧ 0 < m.total_generation_time_ms) →
      m.GetAverageTokensPerSecond = 0) ∧
    (0 < m.total_requests →
      m.GetAverageLatencyMs * (m.total_requests : ℚ) =
        (m.total_generation_time_ms : ℚ) ∧
      ((m.total_requests : ℚ) ≠ 0)) ∧
    (m.total_requests = 0 → m.GetAverageLatencyMs = 0) ∧
    (0 < sn.total_requests ∧ 0 < sn.total_generation_time_ms →
      sn.GetAverageTokensPerSecond * (sn.total_generation_time_ms : ℚ) =
        (sn.total_tokens_generated : ℚ) * 1000 ∧
      ((sn.total_generation_time_ms : ℚ) ≠ 0)) ∧
    (¬(0 < sn.total_requests ∧ 0 < sn.total_generation_time_ms) →
      sn.GetAverageTokensPerSecond = 0) ∧
    (0 < sn.total_requests →
      sn.GetAverageLatencyMs * (sn.total_requests : ℚ) =
        (sn.total_generation_time_ms : ℚ) ∧
      ((sn.total_requests : ℚ) ≠ 0)) ∧
    (sn.total_requests = 0 → sn.GetAverageLatencyMs = 0) := by
  refine ⟨?_, ?_, ?_, ?_, ?_, ?_, ?_, ?_⟩
  · intro h
    have ht : ((m.total_generation_time_ms : ℚ)) ≠ 0 :=
      Nat.cast_ne_zero.mpr (Nat.pos_iff_ne_zero.mp h.2)
    refine ⟨?_, ht⟩
    unfold PerformanceMetrics.GetAverageTokensPerSecond
    rw [if_pos h]
    field_simp
  · intro h
    unfold PerformanceMetrics.GetAverageTokensPerSecond
    rw [if_neg h]
  · intro h
    have hr : ((m.total_requests : ℚ)) ≠ 0 :=
      Nat.cast_ne_zero.mpr (Nat.pos_iff_ne_zero.mp h)
    refine ⟨?_, hr⟩
    unfold PerformanceMetrics.GetAverageLatencyMs
    rw [if_pos h]
    field_simp
  · intro h
    unfold PerformanceMetrics.GetAverageLatencyMs
    rw [if_neg (by omega)]
  · intro h
    have ht : ((sn.total_generation_time_ms : ℚ)) ≠ 0 :=
      Nat.cast_ne_zero.mpr (Nat.pos_iff_ne_zero.mp h.2)
    refine ⟨?_, ht⟩
    unfold PerformanceSnapshot.GetAverageTokensPerSecond
    rw [if_pos h]
    field_simp
  · intro h
    unfold PerformanceSnapshot.GetAverageTokensPerSecond
    rw [if_neg h]
  · intro h
    have hr : ((sn.total_requests : ℚ)) ≠ 0 :=
      Nat.cast_ne_zero.mpr (Nat.pos_iff_ne_zero.mp h)
    refine ⟨?_, hr⟩
    unfold PerformanceSnapshot.GetAverageLatencyMs
    rw [if_pos h]
    field_simp
  · intro h
    unfold PerformanceSnapshot.GetAverageLatencyMs
    rw [if_neg (by omega)]

theorem C10_witness :
    ((0 : Nat) < 2 ∧ (0 : Nat) < 4) ∧
    ((⟨2, 10, 4, 0, 0, 0, 0⟩ : PerformanceMetrics).GetAverageTokensPerSecond *
        ((4 : Nat) : ℚ) = ((10 : Nat) : ℚ) * 1000) ∧
    ((⟨2, 10, 4, 0, 0, 0, 0⟩ : PerformanceSnapshot).GetAverageLatencyMs *
        ((2 : Nat) : ℚ) = ((4 : Nat) : ℚ)) := by
  have h := C10_metric_averages_total ⟨2, 10, 4, 0, 0, 0, 0⟩ ⟨2, 10, 4, 0, 0, 0, 0⟩
  refine ⟨⟨by norm_num, by norm_num⟩, ?_, ?_⟩
  · exact (h.1 ⟨by norm_num, by norm_num⟩).1
  · exact (h.2.2.2.2.2.2.1 (by norm_num)).1

/-- C9: `ChatCompletion(model, messages, params)` equals
`Generate(model, p, params)` where `p` is built by concatenating, in
message order, `"System: " + content + "\n"` for role `"system"`,
`"User: " + content + "\n"` for role `"user"`,
`"Assistant: " + content + "\n"` for role `"assistant"` (any other role
contributes nothing), followed by a trailing `"Assistant: "`. -/
theorem C9_chat_completion_delegates (s : ManagerState) (name : String)
    (messages : List ChatMessage) (maxTokens now : Nat) (o : GenOracle) :
    s.ChatCompletion name messages maxTokens now o =
      s.Generate name (chatPromptSpec messages) maxTokens now o := by
  unfold ManagerState.ChatCompletion chatPromptSpec
  rw [chatPrompt_eq]

/-- C1: the claimed bound is violated by the code.  With a pool configured
for a maximum of one context, two `AcquireContext` calls with no
intervening release both succeed: acquired entries are erased from
`all_contexts_`, so the `all_contexts_.size() < max_pool_size_` check
counts only idle entries and the number of outstanding in-use contexts
(here 2) exceeds the configured maximum (1). -/
theorem C1_outstanding_exceeds_configured_max :
    ((PoolSys.init 1).pool.max_pool_size = 1) ∧
    ((PoolSys.step (PoolSys.step (PoolSys.init 1) (PoolAction.acquire 0 true))
        (PoolAction.acquire 0 true)).held.length = 2) ∧
    ((PoolSys.step (PoolSys.step (PoolSys.init 1) (PoolAction.acquire 0 true))
        (PoolAction.acquire 0 true)).held.all (fun e => e.in_use) = true) := by
  decide

/-- C6: in every reachable configuration of a context pool — including
while entries are checked out and in use — `GetPoolSize()` equals
`GetAvailableCount()`, because `AcquireContext` removes the acquired entry
from the owning collection as well as from the available queue; so
`UnloadModel`'s quiescence test (`pool size == available count`) is
satisfied even while contexts are in use. -/
theorem C6_pool_size_eq_available_count {s : PoolSys} (h : s.Reachable) :
    s.pool.GetPoolSize = s.pool.GetAvailableCount := by
  have hinv := PoolSys.reachable_inv h
  unfold ContextPool.GetPoolSize ContextPool.GetAvailableCount
  rw [hinv.1, List.length_map]

theorem C6_witness :
    ((PoolSys.step (PoolSys.init 4) (PoolAction.acquire 0 true)).held.length = 1) ∧
    ((PoolSys.step (PoolSys.init 4) (PoolAction.acquire 0 true)).pool.GetPoolSize =
      (PoolSys.step (PoolSys.init 4) (PoolAction.acquire 0 true)).pool.GetAvailableCount) :=
  ⟨by decide, C6_pool_size_eq_available_count
    (PoolSys.Reachable.step (PoolAction.acquire 0 true) (PoolSys.Reachable.init 4))⟩

/-- C8: `CleanupExpiredContexts` removes and frees exactly the idle entries
with `now - last_used >= TTL` (the TTL being the fixed 30 minutes set by
the constructor): in every reachable pool configuration, the surviving
owning collection is the filter of the idle entries whose idle time is
under the TTL, the available queue is exactly the ids of those survivors,
and entries currently in use (checked out by callers, hence outside both
collections) are untouched by the sweep. -/
theorem C8_cleanup_removes_exactly_expired {s : PoolSys} (h : s.Reachable)
    (now : Nat) :
    ((s.pool.CleanupExpiredContexts now).all_contexts =
      s.pool.all_contexts.filter
        (fun e => decide (now - e.last_used < s.pool.context_ttl))) ∧
    ((s.pool.CleanupExpiredContexts now).available_contexts =
      (s.pool.all_contexts.filter
        (fun e => decide (now - e.last_used < s.pool.context_ttl))).map
          (fun e => e.id)) ∧
    ((PoolSys.step s (PoolAction.cleanup now)).held = s.held) ∧
    (s.pool.context_ttl = 30 * 60 * 1000) := by
  obtain ⟨hav, hnd, hbound, httl⟩ := PoolSys.reachable_inv h
  exact ⟨CleanupExpiredContexts_all hav hnd.of_append_left now,
    CleanupExpiredContexts_available hav hnd.of_append_left now, rfl, httl⟩

theorem C8_witness :
    (((PoolSys.step (PoolSys.step (PoolSys.init 4) (PoolAction.acquire 0 true))
        (PoolAction.release { id := 0, in_use := true, last_used := 0, usage_count := 1 }
          0)).pool.CleanupExpiredContexts 1800000).all_contexts = []) ∧
    (((PoolSys.step (PoolSys.step (PoolSys.init 4) (PoolAction.acquire 0 true))
        (PoolAction.release { id := 0, in_use := true, last_used := 0, usage_count := 1 }
          0)).pool.CleanupExpiredContexts 1800000).available_contexts = []) ∧
    (((PoolSys.step (PoolSys.step (PoolSys.init 4) (PoolAction.acquire 0 true))
        (PoolAction.release { id := 0, in_use := true, last_used := 0, usage_count := 1 }
          0)).pool.CleanupExpiredContexts 1799999).all_contexts.length = 1) := by
  have h1 := C8_cleanup_removes_exactly_expired
    (PoolSys.Reachable.step
      (PoolAction.release { id := 0, in_use := true, last_used := 0, usage_count := 1 } 0)
      (PoolSys.Reachable.step (PoolAction.acquire 0 true) (PoolSys.Reachable.init 4)))
    1800000
  have h2 := C8_cleanup_removes_exactly_expired
    (PoolSys.Reachable.step
      (PoolAction.release { id := 0, in_use := true, last_used := 0, usage_count := 1 } 0)
      (PoolSys.Reachable.step (PoolAction.acquire 0 true) (PoolSys.Reachable.init 4)))
    1799999
  refine ⟨?_, ?_, ?_⟩
  · rw [h1.1]
    decide
  · rw [h1.2.1]
    decide
  · rw [h2.1]
    decide

/-- C5: `UnloadModel` on a loaded model whose reference count is positive
does not complete (its poll loop, entered holding the registry lock, spins
until the count is zero — within one call the count cannot drop, so the
call stays blocked) and changes no state; `UnloadModel` on a name not in
the registry returns the C++ `false` (NotFound) and changes no state. -/
theorem C5_unload_blocks_until_released_and_notfound
    (s : ManagerState) (name : String) :
    (∀ p, s.models.find? (fun q => q.1 == name) = some p →
      0 < p.2.reference_count →
      s.UnloadModel name = (.blocked, s)) ∧
    (s.models.find? (fun q => q.1 == name) = none →
      s.UnloadModel name = (.notFound, s)) := by
  constructor
  · intro p hp hrc
    unfold ManagerState.UnloadModel
    rw [hp]
    simp [hrc]
  · intro hnone
    unfold ManagerState.UnloadModel
    rw [hnone]

theorem C5_witness :
    (mgrC5.models.find? (fun q => q.1 == mNm) = some (mNm, sampleModel 1 50) ∧
      0 < (sampleModel 1 50).reference_count ∧
      mgrC5.UnloadModel mNm = (.blocked, mgrC5)) ∧
    (mgrC5.models.find? (fun q => q.1 == nameB) = none ∧
      mgrC5.UnloadModel nameB = (.notFound, mgrC5)) := by
  have h1 := C5_unload_blocks_until_released_and_notfound mgrC5 mNm
  have h2 := C5_unload_blocks_until_released_and_notfound mgrC5 nameB
  refine ⟨⟨by decide, by decide, h1.1 (mNm, sampleModel 1 50) (by decide) (by decide)⟩,
    ⟨by decide, h2.2 (by decide)⟩⟩

/-- C7: loading the same name twice succeeds both times, the second call
performs no reload and leaves the state (hence `GetLoadedModelCount`)
unchanged, and afterwards the registry holds exactly one model under that
name. -/
theorem C7_load_model_idempotent
    {s : ManagerState} {name : String} {c1 c2 : ModelConfig}
    {now1 now2 : Nat} {env1 env2 : LoadEnv} {s1 : ManagerState}
    (h : s.LoadModel name c1 now1 env1 = (.success, s1)) :
    ((s1.LoadModel name c2 now2 env2).1 = .alreadyLoaded) ∧
    ((s1.LoadModel name c2 now2 env2).1.toBool = true) ∧
    ((s1.LoadModel name c2 now2 env2).2 = s1) ∧
    (s1.models.countP (fun p => p.1 == name) = 1) ∧
    ((s1.LoadModel name c2 now2 env2).2.GetLoadedModelCount = s1.GetLoadedModelCount) := by
  obtain ⟨hfnone, hback, hlim, hmax, M, hmodels⟩ := LoadModel_success_inv h
  have hfsome : (s1.models.find? (fun p => p.1 == name)).isSome = true := by
    rw [hmodels, List.find?_append, hfnone]
    simp
  have h2 := @LoadModel_already s1 name c2 now2 env2 hback hfsome
  refine ⟨by rw [h2], by rw [h2]; rfl, by rw [h2], ?_, by rw [h2]⟩
  rw [hmodels, List.countP_append]
  have h0 : s.models.countP (fun p => p.1 == name) = 0 :=
    List.countP_eq_zero.mpr (List.find?_eq_none.mp hfnone)
  simp [h0]

theorem C7_witness :
    (((ManagerState.init 0 10).LoadModel mNm sampleConfig 0 envOk).1 = .success) ∧
    ((((ManagerState.init 0 10).LoadModel mNm sampleConfig 0 envOk).2.LoadModel
        mNm sampleConfig2 1 envOk).1.toBool = true) ∧
    ((((ManagerState.init 0 10).LoadModel mNm sampleConfig 0 envOk).2.LoadModel
        mNm sampleConfig2 1 envOk).2 =
      ((ManagerState.init 0 10).LoadModel mNm sampleConfig 0 envOk).2) ∧
    (((ManagerState.init 0 10).LoadModel mNm sampleConfig 0 envOk).2.models.countP
      (fun p => p.1 == mNm) = 1) := by
  have hsucc : (ManagerState.init 0 10).LoadModel mNm sampleConfig 0 envOk =
      (.success, ((ManagerState.init 0 10).LoadModel mNm sampleConfig 0 envOk).2) := by
    decide
  have h := @C7_load_model_idempotent _ _ _ sampleConfig2 _ 1 _ envOk _ hsucc
  exact ⟨by decide, h.2.1, h.2.2.1, h.2.2.2.1⟩

/-- C2, counterexample to the claim as stated: with a configured 1 MB limit
and nothing loaded (tracked usage 0 < limit), loading a model whose
estimated footprint is 2,000,000 bytes — which pushes tracked usage well
over the limit — SUCCEEDS: `CheckMemoryLimit` (line 519) compares only the
usage tracked so far against the limit and never consults the incoming
model's estimate, so the call does not fail with `MemoryLimitExceeded` and
the registry state changes. -/
theorem C2_counterexample :
    ((ManagerState.init 1 10).memory_limit_bytes = 1048576) ∧
    ((ManagerState.init 1 10).memory_limit_bytes ≠ 0) ∧
    ((ManagerState.init 1 10).metrics.memory_usage_bytes = 0) ∧
    (((ManagerState.init 1 10).LoadModel mNm sampleConfig 0 envBig).1 =
      .success) ∧
    (((ManagerState.init 1 10).LoadModel mNm sampleConfig 0 envBig).2.metrics.memory_usage_bytes
      = 2000000) ∧
    (1048576 < 2000000) := by
  decide

/-- C2, amended: when the configured memory limit is non-zero and the
tracked usage has already reached or exceeded it, `LoadModel` of a name not
in the registry fails with `MemoryLimitExceeded` and leaves the registry
state exactly unchanged (models, memory counters, Janitor and backend flags
— the Janitor is necessarily already running, since positive tracked usage
means the registry is non-empty in every well-formed state).  The estimate
of the model being loaded is never consulted: admission only compares the
usage tracked so far against the limit, so a single load may push usage
past the limit (see the counterexample). -/
theorem C2_amended_memory_limit_leaves_state_unchanged
    {s : ManagerState} (hwf : MgrWF s) (name : String) (config : ModelConfig)
    (now : Nat) (env : LoadEnv)
    (hlim : s.memory_limit_bytes ≠ 0)
    (husage : s.memory_limit_bytes ≤ s.metrics.memory_usage_bytes)
    (hfind : s.models.find? (fun p => p.1 == name) = none) :
    s.LoadModel name config now env = (.memoryLimitExceeded, s) := by
  obtain ⟨hsum, hjan, -⟩ := hwf
  have husage0 : 0 < s.metrics.memory_usage_bytes :=
    lt_of_lt_of_le (Nat.pos_of_ne_zero hlim) husage
  have hne : s.models ≠ [] := by
    intro hnil
    rw [hnil] at hsum
    simp at hsum
    omega
  have hb := (hjan hne).2
  have hmem : s.CheckMemoryLimit = false := by
    unfold ManagerState.CheckMemoryLimit
    have h1 : (s.memory_limit_bytes == 0) = false := by
      simp [hlim]
    have h2 : decide (s.metrics.memory_usage_bytes < s.memory_limit_bytes) = false := by
      simp only [decide_eq_false_iff_not, not_lt]
      exact husage
    rw [h1, h2]
    rfl
  exact LoadModel_memoryLimit hb hne hfind hmem

theorem C2_witness :
    MgrWF mgrC2 ∧
    (mgrC2.memory_limit_bytes ≠ 0) ∧
    (mgrC2.memory_limit_bytes ≤ mgrC2.metrics.memory_usage_bytes) ∧
    (mgrC2.models.find? (fun p => p.1 == nameB) = none) ∧
    (mgrC2.LoadModel nameB sampleConfig 0 envOk = (.memoryLimitExceeded, mgrC2)) := by
  have hwf : MgrWF mgrC2 := by
    refine ⟨by decide, fun _ => ⟨rfl, rfl⟩, by decide⟩
  refine ⟨hwf, by decide, by decide, by decide, ?_⟩
  exact C2_amended_memory_limit_leaves_state_unchanged hwf nameB sampleConfig 0 envOk
    (by decide) (by decide) (by decide)

/-- C3, counterexample to the claim as stated: a streaming session started
for a model that is not loaded terminates (the task sets `finished` and
returns at lines 805-811) without ever enqueueing any token — in
particular, its emitted sequence does not contain exactly one token with
`is_final = true`. -/
theorem C3_counterexample :
    ((ManagerState.init 0 10).models = []) ∧
    (((ManagerState.init 0 10).StartGeneration mNm samplePrompt 5 0
        oracleStreamOk).finished = true) ∧
    (((ManagerState.init 0 10).StartGeneration mNm samplePrompt 5 0
        oracleStreamOk).emitted = []) ∧
    (((ManagerState.init 0 10).StartGeneration mNm samplePrompt 5 0
        oracleStreamOk).emitted.countP (fun t => t.is_final) ≠ 1) := by
  decide

/-- C3, amended: every streaming generation task terminates with the
`finished` flag set and emits at most one token with `is_final = true`,
always in last position (every token before the last is non-final).
Exactly one final token is emitted if and only if the task reached the
generation loop and no exception escaped it — i.e. the prompt was
tokenized and decoded successfully and the loop exited by the
end-of-generation token, the max-token bound, an external stop, or a
failed feed-back decode.  On the early failure paths (model not found, no
context available, tokenize failure, prompt-decode failure) and on an
exception, no token at all is marked final; those sessions signal
termination through the `finished` flag alone, and `GetNextToken` then
reports `false` instead of delivering a final token. -/
theorem C3_amended_exactly_one_final_token_iff_loop_reached
    (s : ManagerState) (name prompt : String) (maxTokens now : Nat)
    (o : StreamOracle) :
    ((s.StartGeneration name prompt maxTokens now o).finished = true) ∧
    ((s.StartGeneration name prompt maxTokens now o).emitted.countP
        (fun t => t.is_final) ≤ 1) ∧
    ((s.StartGeneration name prompt maxTokens now o).emitted.dropLast.all
        (fun t => !t.is_final) = true) ∧
    (((s.StartGeneration name prompt maxTokens now o).emitted.countP
        (fun t => t.is_final) = 1) ↔
      ((s.StartGeneration name prompt maxTokens now o).outcome = .completed ∨
        (s.StartGeneration name prompt maxTokens now o).outcome =
          .completedDecodeFailed)) := by
  unfold ManagerState.StartGeneration
  cases hfind : s.models.find? (fun p => p.1 == name) with
  | none => simp
  | some p =>
    cases hacq : p.2.pool.AcquireContext now o.engineOk with
    | mk entryOpt pool' =>
      cases entryOpt with
      | none => simp [hacq]
      | some entry =>
        cases htok : o.tokenize prompt with
        | none => simp [hacq, htok]
        | some toks =>
          cases hpd : o.promptDecodeOk with
          | false => simp [hacq, htok, hpd]
          | true =>
            cases hloop : streamLoop o maxTokens 0 [] with
            | mk emitted exit =>
              have hnf : ∀ t ∈ emitted, t.is_final = false := by
                have h0 := streamLoop_no_final o maxTokens 0 []
                  (by intro t ht; cases ht)
                rw [hloop] at h0
                exact h0
              have hcnt : emitted.countP (fun t => t.is_final) = 0 :=
                List.countP_eq_zero.mpr (fun t ht => by simp [hnf t ht])
              have halld : emitted.dropLast.all (fun t => !t.is_final) = true :=
                List.all_eq_true.mpr (fun t ht => by
                  simp [hnf t ((List.dropLast_sublist emitted).subset ht)])
              have hallfull : (emitted ++ [finalStreamToken]).dropLast.all
                  (fun t => !t.is_final) = true := by
                rw [List.dropLast_concat]
                exact List.all_eq_true.mpr (fun t ht => by simp [hnf t ht])
              have hcntfull : (emitted ++ [finalStreamToken]).countP
                  (fun t => t.is_final) = 1 := by
                rw [List.countP_append, hcnt]
                rfl
              cases exit with
              | threw => simp [hacq, htok, hpd, hloop, hcnt, halld, hnf]
              | decodeFailed =>
                simp [hacq, htok, hpd, hloop, hcntfull, hallfull, hnf]
                exact hnf
              | maxTokens =>
                simp [hacq, htok, hpd, hloop, hcntfull, hallfull, hnf]
                exact hnf
              | stopped =>
                simp [hacq, htok, hpd, hloop, hcntfull, hallfull, hnf]
                exact hnf
              | eog =>
                simp [hacq, htok, hpd, hloop, hcntfull, hallfull, hnf]
                exact hnf

/-- C4, counterexample to the claim as stated: in a streaming generation
task that acquires a context and then suffers an exception inside the
loop, the `catch` block (lines 934-939) sets the error and finished flags
but performs zero `ReleaseContext` calls — the claim requires exactly one
release on the exception path of the streaming task as well. -/
theorem C4_counterexample :
    ((mgrC5.StartGeneration mNm samplePrompt 5 0 oracleStreamThrow).acquired = true) ∧
    ((mgrC5.StartGeneration mNm samplePrompt 5 0 oracleStreamThrow).releases = 0) ∧
    ((mgrC5.StartGeneration mNm samplePrompt 5 0 oracleStreamThrow).outcome =
      .exceptionCaught) := by
  decide

/-- C4, amended: `Generate` and `GetEmbeddings` call `ReleaseContext`
exactly once whenever their `AcquireContext` succeeded — on the success,
tokenize-failure, decode-failure and exception paths alike — and never
otherwise.  The streaming generation task likewise releases exactly once
on every path where it acquired a context, except when an exception
escapes the loop: there the context is not returned to the pool but is
freed by stack unwinding (the `unique_ptr` destructor), which is the
`destroyed` flag below — so on every path exactly one of release/destroy
disposes of the context, and no path exits still holding it. -/
theorem C4_amended_release_or_destroy_exactly_once
    (s : ManagerState) (name prompt text : String) (maxTokens now : Nat)
    (og : GenOracle) (oe : EmbOracle) (os : StreamOracle) :
    ((s.Generate name prompt maxTokens now og).releases =
      if (s.Generate name prompt maxTokens now og).acquired then 1 else 0) ∧
    ((s.GetEmbeddings name text now oe).releases =
      if (s.GetEmbeddings name text now oe).acquired then 1 else 0) ∧
    ((s.StartGeneration name prompt maxTokens now os).releases +
        (if (s.StartGeneration name prompt maxTokens now os).destroyed then 1 else 0) =
      if (s.StartGeneration name prompt maxTokens now os).acquired then 1 else 0) ∧
    ((s.StartGeneration name prompt maxTokens now os).destroyed =
      decide ((s.StartGeneration name prompt maxTokens now os).outcome =
        StreamOutcome.exceptionCaught)) := by
  refine ⟨?_, ?_, ?_⟩
  · unfold ManagerState.Generate
    cases hfind : s.models.find? (fun p => p.1 == name) with
    | none => simp
    | some p =>
      cases hacq : p.2.pool.AcquireContext now og.engineOk with
      | mk eo pool' =>
        cases eo with
        | none => simp [hacq]
        | some entry =>
          cases hth : og.throws with
          | true => simp [hacq, hth]
          | false =>
            cases htok : og.tokenize prompt with
            | none => simp [hacq, hth, htok]
            | some toks =>
              cases hpd : og.promptDecodeOk with
              | false => simp [hacq, hth, htok, hpd]
              | true =>
                cases hloop : genLoop og maxTokens 0 "" 0 with
                | mk outText cnt => simp [hacq, hth, htok, hpd, hloop]
  · unfold ManagerState.GetEmbeddings
    cases hfind : s.models.find? (fun p => p.1 == name) with
    | none => simp
    | some p =>
      cases hacq : p.2.pool.AcquireContext now oe.engineOk with
      | mk eo pool' =>
        cases eo with
        | none => simp [hacq]
        | some entry =>
          cases hth : oe.throws with
          | true => simp [hacq, hth]
          | false =>
            cases htok : oe.tokenize text with
            | none => simp [hacq, hth, htok]
            | some toks =>
              cases hpd : oe.decodeOk with
              | false => simp [hacq, hth, htok, hpd]
              | true =>
                cases hemb : oe.embeddings with
                | none => simp [hacq, hth, htok, hpd, hemb]
                | some v => simp [hacq, hth, htok, hpd, hemb]
  · unfold ManagerState.StartGeneration
    cases hfind : s.models.find? (fun p => p.1 == name) with
    | none => simp
    | some p =>
      cases hacq : p.2.pool.AcquireContext now os.engineOk with
      | mk eo pool' =>
        cases eo with
        | none => simp [hacq]
        | some entry =>
          cases htok : os.tokenize prompt with
          | none => simp [hacq, htok]
          | some toks =>
            cases hpd : os.promptDecodeOk with
            | false => simp [hacq, htok, hpd]
            | true =>
              cases hloop : streamLoop os maxTokens 0 [] with
              | mk emitted exit =>
                cases exit with
                | threw => simp [hacq, htok, hpd, hloop]
                | decodeFailed => simp [hacq, htok, hpd, hloop]
                | maxTokens => simp [hacq, htok, hpd, hloop]
                | stopped => simp [hacq, htok, hpd, hloop]
                | eog => simp [hacq, htok, hpd, hloop]

end LlamaCapi
